import Mathlib

/-
Verification of src/usr.sbin/relayd/siphash.c (SipHash-c-d, incremental
streaming interface plus one-shot wrapper).

Modelling conventions:
* 64-bit machine words are Nat with explicit reduction modulo 2 ^ 64 where
  the C arithmetic wraps; byte buffers are List Nat (one Nat per byte).
* The SIPHASH_CTX and SIPHASH_KEY struct layouts come from crypto/siphash.h,
  which is not part of this tree; they are modelled from the spec (four
  64-bit state words, an 8-byte staging buffer, a byte counter; the key is
  two 8-byte halves).
* The endian conversion macros (lemtoh64 / htolem64 on the OpenBSD side,
  le64toh / htole64 on the FreeBSD side) come from system headers that are
  not part of this tree; they are modelled from the spec as little-endian
  loads and stores.
* The int round counts are modelled as Nat in the main definitions; the
  exact while (rounds--) loop of SipHash_Rounds, including its behaviour on
  zero and negative counts, is modelled separately by sipRoundsLoop over Int
  with explicit fuel.
-/

set_option maxRecDepth 4000

/-- The four 64-bit state words v[0]..v[3] of a SipHash computation. -/
structure SipVec where
  v0 : Nat
  v1 : Nat
  v2 : Nat
  v3 : Nat
deriving DecidableEq

/-- Modelled from the spec: SIPHASH_CTX from crypto/siphash.h (not in this
tree): the state words v[4], the 8-byte staging buffer buf[8], and the
running byte counter bytes. -/
structure SIPHASH_CTX where
  v : SipVec
  buf : List Nat
  bytes : Nat
deriving DecidableEq

/-- Modelled from the spec: SIPHASH_KEY from crypto/siphash.h (not in this
tree): a 128-bit key stored as two 8-byte halves k0 and k1, read
little-endian by SipHash_Init. -/
structure SIPHASH_KEY where
  k0 : List Nat
  k1 : List Nat
deriving DecidableEq

/-- Modelled from the spec: the little-endian 64-bit load performed by the
endian macro lemtoh64 (OpenBSD branch; the FreeBSD branch uses le64toh on
the same bytes): byte i of the buffer has weight 256 ^ i.  A load from a
buffer shorter than 8 bytes would read out of bounds in C; it yields 0
here and never arises in the theorems below. -/
def lemtoh64 : List Nat → Nat
  | a0 :: a1 :: a2 :: a3 :: a4 :: a5 :: a6 :: a7 :: _ =>
      a0 + 256 * (a1 + 256 * (a2 + 256 * (a3 + 256 *
        (a4 + 256 * (a5 + 256 * (a6 + 256 * a7))))))
  | _ => 0

/-- Modelled from the spec: the 8 bytes stored by the little-endian 64-bit
store htolem64 (byte i is bits 8i..8i+7 of the value). -/
def htolem64bytes (r : Nat) : List Nat :=
  [r % 256, (r >>> 8) % 256, (r >>> 16) % 256, (r >>> 24) % 256,
   (r >>> 32) % 256, (r >>> 40) % 256, (r >>> 48) % 256, (r >>> 56) % 256]

/-- memcpy of src into the fixed-size byte buffer buf at offset off
(memcpy(&buf[off], src, src.length)).  Positions off .. off+src.length-1
take the corresponding src byte, all others keep their old value; bytes
that would land past the end of buf are out of bounds in C and fall
outside the represented region. -/
def writeBytes (buf : List Nat) (off : Nat) (src : List Nat) : List Nat :=
  (List.range buf.length).map fun i =>
    if off ≤ i ∧ i < off + src.length then src.getD (i - off) 0 else buf.getD i 0

/-- The SIP_ROTL macro: ((x) << (b)) | ((x) >> (64 - (b))) on a 64-bit
word, the left shift wrapping modulo 2 ^ 64 as in C. -/
def rotl64 (x b : Nat) : Nat :=
  ((x <<< b) % 2 ^ 64) ||| (x >>> (64 - b))

/-- One SipRound: the body of the while loop of SipHash_Rounds, a straight
transcription of the fourteen assignments, additions wrapping modulo
2 ^ 64. -/
def sipRound (s : SipVec) : SipVec :=
  let v0 := (s.v0 + s.v1) % 2 ^ 64
  let v2 := (s.v2 + s.v3) % 2 ^ 64
  let v1 := rotl64 s.v1 13
  let v3 := rotl64 s.v3 16
  let v1 := v1 ^^^ v0
  let v3 := v3 ^^^ v2
  let v0 := rotl64 v0 32
  let v2 := (v2 + v1) % 2 ^ 64
  let v0 := (v0 + v3) % 2 ^ 64
  let v1 := rotl64 v1 17
  let v3 := rotl64 v3 21
  let v1 := v1 ^^^ v2
  let v3 := v3 ^^^ v0
  let v2 := rotl64 v2 32
  ⟨v0, v1, v2, v3⟩

/-- n sequential applications of sipRound. -/
def sipRoundN : Nat → SipVec → SipVec
  | 0, s => s
  | n + 1, s => sipRoundN n (sipRound s)

/-- SipHash_Rounds for a nonnegative round count: the while (rounds--) loop
runs the round body exactly rounds times (sipRoundsLoop below models the
loop for arbitrary int counts and is tied to this definition). -/
def SipHash_Rounds (ctx : SIPHASH_CTX) (rounds : Nat) : SIPHASH_CTX :=
  { ctx with v := sipRoundN rounds ctx.v }

/-- SipHash_CRounds: m = little-endian load of the staging buffer;
v[3] ^= m; SipHash_Rounds(ctx, rounds); v[0] ^= m. -/
def SipHash_CRounds (ctx : SIPHASH_CTX) (rounds : Nat) : SIPHASH_CTX :=
  let m := lemtoh64 ctx.buf
  let s1 := { ctx.v with v3 := ctx.v.v3 ^^^ m }
  let s2 := sipRoundN rounds s1
  { ctx with v := { s2 with v0 := s2.v0 ^^^ m } }

/-- SipHash_Init: state words are the four constants XORed with the
little-endian key halves; the staging buffer is cleared (memset to 0) and
the byte counter reset. -/
def SipHash_Init (key : SIPHASH_KEY) : SIPHASH_CTX :=
  let k0 := lemtoh64 key.k0
  let k1 := lemtoh64 key.k1
  { v := { v0 := 0x736f6d6570736575 ^^^ k0
           v1 := 0x646f72616e646f6d ^^^ k1
           v2 := 0x6c7967656e657261 ^^^ k0
           v3 := 0x7465646279746573 ^^^ k1 }
    buf := List.replicate 8 0
    bytes := 0 }

/-- The while (len >= sizeof(ctx->buf)) loop of SipHash_Update: each full
8-byte block is copied into the staging buffer and absorbed; returns the
updated context and the remaining (fewer than 8) bytes. -/
def absorbBlocks (rc : Nat) (ctx : SIPHASH_CTX) : List Nat → SIPHASH_CTX × List Nat
  | b0 :: b1 :: b2 :: b3 :: b4 :: b5 :: b6 :: b7 :: rest =>
      absorbBlocks rc
        (SipHash_CRounds
          { ctx with buf := writeBytes ctx.buf 0 [b0, b1, b2, b3, b4, b5, b6, b7] } rc)
        rest
  | rest => (ctx, rest)

/-- SipHash_Update, transcribed from the source: a zero-length call
returns immediately; used = bytes % 8 is read once, the counter is bumped;
if the staging buffer holds bytes and the input cannot fill it the input
is appended there and the call returns; otherwise the buffer is topped up
and absorbed, every further full 8-byte block is absorbed, and any
leftover tail is copied by memcpy(&ctx->buf[used], ptr, len) - at offset
used, which the source never reset to 0 after the top-up.  The rf argument
is taken and ignored, as in the C signature. -/
def SipHash_Update (ctx : SIPHASH_CTX) (rc rf : Nat) (src : List Nat) : SIPHASH_CTX :=
  if src.length = 0 then ctx
  else
    let used := ctx.bytes % 8
    let free := 8 - used
    let ctx1 := { ctx with bytes := ctx.bytes + src.length }
    if 0 < used ∧ src.length < free then
      { ctx1 with buf := writeBytes ctx1.buf used src }
    else
      let ctx2 :=
        if 0 < used then
          SipHash_CRounds { ctx1 with buf := writeBytes ctx1.buf used (src.take free) } rc
        else ctx1
      let rest0 := if 0 < used then src.drop free else src
      let p := absorbBlocks rc ctx2 rest0
      if 0 < p.2.length then { p.1 with buf := writeBytes p.1.buf used p.2 } else p.1

/-- The all-zero context left behind by explicit_bzero(ctx, sizeof(*ctx)). -/
def zeroCtx : SIPHASH_CTX :=
  { v := ⟨0, 0, 0, 0⟩, buf := List.replicate 8 0, bytes := 0 }

/-- SipHash_End: zero the staging buffer from offset used = bytes % 8 for
free - 1 bytes, write the byte counter (truncated to its low 8 bits by the
u_int8_t assignment) into buf[7], absorb with rc compression rounds, XOR
0xff into v[2], run rf finalization rounds, fold the state to
(v0 ^ v1) ^ (v2 ^ v3), and wipe the context with explicit_bzero.  Returns
the digest together with the wiped context. -/
def SipHash_End (ctx : SIPHASH_CTX) (rc rf : Nat) : Nat × SIPHASH_CTX :=
  let used := ctx.bytes % 8
  let free := 8 - used
  let buf1 := writeBytes ctx.buf used (List.replicate (free - 1) 0)
  let buf2 := buf1.set 7 (ctx.bytes % 256)
  let ctx1 := SipHash_CRounds { ctx with buf := buf2 } rc
  let ctx2 := { ctx1 with v := { ctx1.v with v2 := ctx1.v.v2 ^^^ 0xff } }
  let ctx3 := SipHash_Rounds ctx2 rf
  ((ctx3.v.v0 ^^^ ctx3.v.v1) ^^^ (ctx3.v.v2 ^^^ ctx3.v.v3), zeroCtx)

/-- SipHash_Final on the portable (non-FreeBSD) branch: r = SipHash_End;
htolem64((u_int64_t *)dst, r) stores the digest little-endian through the
destination pointer. -/
def SipHash_Final (dst : List Nat) (ctx : SIPHASH_CTX) (rc rf : Nat) :
    List Nat × SIPHASH_CTX :=
  let p := SipHash_End ctx rc rf
  (writeBytes dst 0 (htolem64bytes p.1), p.2)

/-- SipHash_Final on the FreeBSD branch: the statement
dst = (u_int64_t *)htole64(r) assigns the converted value to the local
parameter dst; nothing is stored through the pointer, so the destination
buffer is returned unchanged.  The digest and the wipe still happen inside
SipHash_End. -/
def SipHash_Final_freebsd (dst : List Nat) (ctx : SIPHASH_CTX) (rc rf : Nat) :
    List Nat × SIPHASH_CTX :=
  let p := SipHash_End ctx rc rf
  (dst, p.2)

/-- The one-shot SipHash: Init, a single Update with the whole message,
End. -/
def SipHash (key : SIPHASH_KEY) (rc rf : Nat) (src : List Nat) : Nat :=
  (SipHash_End (SipHash_Update (SipHash_Init key) rc rf src) rc rf).1

/-- One SipHash_Update call per chunk, in order. -/
def runUpdates (ctx : SIPHASH_CTX) (rc rf : Nat) (chunks : List (List Nat)) : SIPHASH_CTX :=
  chunks.foldl (fun c s => SipHash_Update c rc rf s) ctx

/-- The streaming digest: Init, one Update per chunk, End. -/
def SipHashStream (key : SIPHASH_KEY) (rc rf : Nat) (chunks : List (List Nat)) : Nat :=
  (SipHash_End (runUpdates (SipHash_Init key) rc rf chunks) rc rf).1

/-- The while (rounds--) loop of SipHash_Rounds over the actual int
counter, with explicit fuel: the loop exits only when the tested counter
value is 0, otherwise it runs the round body on the state and continues
with counter - 1.  none means the loop did not finish within the given
fuel. -/
def sipRoundsLoop : Nat → Int → SipVec → Option SipVec
  | 0, _, _ => none
  | fuel + 1, r, s => if r = 0 then some s else sipRoundsLoop fuel (r - 1) (sipRound s)

/-- The loop never finishes, whatever fuel it is given. -/
def LoopDiverges (r : Int) (s : SipVec) : Prop :=
  ∀ fuel, sipRoundsLoop fuel r s = none

/-- Finalization as the specification describes it: the padded final block
keeps the used = bytes % 8 valid staging bytes, is zero elsewhere except
the last byte, which holds the byte count modulo 256; that block is
absorbed (v3 ^= m, rc rounds, v0 ^= m), 0xff is XORed into v2, rf plain
rounds run, and the digest is (v0 XOR v1) XOR (v2 XOR v3). -/
def sipEndSpec (ctx : SIPHASH_CTX) (rc rf : Nat) : Nat :=
  let used := ctx.bytes % 8
  let pad := (List.range 8).map fun i =>
    if i < used then ctx.buf.getD i 0 else if i = 7 then ctx.bytes % 256 else 0
  let m := lemtoh64 pad
  let s1 := { ctx.v with v3 := ctx.v.v3 ^^^ m }
  let s2 := sipRoundN rc s1
  let s3 := { s2 with v0 := s2.v0 ^^^ m }
  let s4 := { s3 with v2 := s3.v2 ^^^ 0xff }
  let s5 := sipRoundN rf s4
  (s5.v0 ^^^ s5.v1) ^^^ (s5.v2 ^^^ s5.v3)

/-- The all-zero 128-bit key, used as a concrete evaluation point. -/
def zeroKey : SIPHASH_KEY :=
  { k0 := List.replicate 8 0, k1 := List.replicate 8 0 }

/-- The canonical SipHash test key 00 01 02 .. 0f, used as a concrete
evaluation point. -/
def stdKey : SIPHASH_KEY :=
  { k0 := [0, 1, 2, 3, 4, 5, 6, 7], k1 := [8, 9, 10, 11, 12, 13, 14, 15] }

/-- Sanity anchor: the embedding reproduces the published SipHash-2-4
reference vector for the empty message under the canonical test key. -/
theorem siphash_known_answer_empty :
    SipHash stdKey 2 4 [] = 0x726fdb47dd0e0e31 := by decide

/-- Sanity anchor: the published SipHash-2-4 reference vector for the
7-byte message 00 01 .. 06 under the canonical test key. -/
theorem siphash_known_answer_seven :
    SipHash stdKey 2 4 [0, 1, 2, 3, 4, 5, 6] = 0xab0200f58b01d137 := by decide

/-- Helper: the while (rounds--) loop started on a negative counter never
exits, whatever fuel it is given: the tested counter values stay strictly
negative and never reach 0. -/
theorem sipRoundsLoop_none_of_neg :
    ∀ (fuel : Nat) (r : Int), r < 0 → ∀ s : SipVec, sipRoundsLoop fuel r s = none := by
  intro fuel
  induction fuel with
  | zero => intro r _ s; rfl
  | succ n ih =>
      intro r hr s
      have hne : ¬ r = 0 := by omega
      simp only [sipRoundsLoop, hne, if_false]
      exact ih (r - 1) (by omega) (sipRound s)

/-- Helper: on a nonnegative counter n the loop exits after exactly n
iterations of the round body, so fuel n + 1 suffices. -/
theorem sipRoundsLoop_ofNat :
    ∀ (n : Nat) (s : SipVec), sipRoundsLoop (n + 1) (n : Int) s = some (sipRoundN n s) := by
  intro n
  induction n with
  | zero => intro s; rfl
  | succ m ih =>
      intro s
      have hne : ¬ ((m + 1 : Nat) : Int) = 0 := by omega
      simp only [sipRoundsLoop, hne, if_false]
      have hc : ((m + 1 : Nat) : Int) - 1 = (m : Int) := by push_cast; ring
      rw [hc]
      exact ih (sipRound s)

/-- Helper: sipRoundN is iteration of the single round. -/
theorem sipRoundN_eq_iterate :
    ∀ (n : Nat) (s : SipVec), sipRoundN n s = sipRound^[n] s := by
  intro n
  induction n with
  | zero => intro s; rfl
  | succ m ih =>
      intro s
      rw [Function.iterate_succ_apply]
      exact ih (sipRound s)

/-- C1: the claimed streaming equivalence fails on the code.  With the
zero key and rc = 2, rf = 4, splitting the 9-byte message 00..08 into the
chunks 00..03 and 04..08 yields a digest different from the one-shot
SipHash of the same message: the second Update copies the 1-byte tail to
the stale offset used = 4 instead of the start of the staging buffer. -/
theorem siphash_streaming_mismatch :
    SipHashStream zeroKey 2 4 [[0, 1, 2, 3], [4, 5, 6, 7, 8]] ≠
      SipHash zeroKey 2 4 [0, 1, 2, 3, 4, 5, 6, 7, 8] := by decide

/-- C3: evaluation of SipHash_Update at a failing input.  Starting from
the zero-key context holding 4 staged bytes 00..03, an Update with the 5
bytes 04..08 tops up and absorbs the first block but then copies the
leftover tail byte 08 to buf[4] (the stale used offset), not to the start
of the staging buffer, leaving buf = 00 01 02 03 08 05 06 07 with stale
bytes at positions 0..3. -/
theorem siphash_update_tail_misplaced :
    ((SipHash_Update (SipHash_Update (SipHash_Init zeroKey) 2 4 [0, 1, 2, 3])
        2 4 [4, 5, 6, 7, 8]).buf = [0, 1, 2, 3, 8, 5, 6, 7]) ∧
    ((SipHash_Update (SipHash_Update (SipHash_Init zeroKey) 2 4 [0, 1, 2, 3])
        2 4 [4, 5, 6, 7, 8]).buf.getD 0 0 ≠ 8) := by decide

/-- C6: the staging-buffer invariant fails on the code.  After Init with
the zero key, Update 00..03 and Update 04..08, the byte count modulo 8
does equal the number of unabsorbed trailing input bytes (1), but the
bytes at the start of the staging buffer are not those trailing bytes:
buf.take 1 is 00 (a stale byte of the absorbed block), not 08. -/
theorem siphash_staging_invariant_fails :
    ((SipHash_Update (SipHash_Update (SipHash_Init zeroKey) 2 4 [0, 1, 2, 3])
        2 4 [4, 5, 6, 7, 8]).bytes % 8
      = ([0, 1, 2, 3, 4, 5, 6, 7, 8] : List Nat).length % 8) ∧
    ((SipHash_Update (SipHash_Update (SipHash_Init zeroKey) 2 4 [0, 1, 2, 3])
        2 4 [4, 5, 6, 7, 8]).buf.take
          ((SipHash_Update (SipHash_Update (SipHash_Init zeroKey) 2 4 [0, 1, 2, 3])
            2 4 [4, 5, 6, 7, 8]).bytes % 8)
      ≠ ([0, 1, 2, 3, 4, 5, 6, 7, 8] : List Nat).drop 8) := by decide

/-- C7: on every finalization path the computation object handed back is
completely zeroed: SipHash_End, SipHash_Final (portable branch) and
SipHash_Final on the FreeBSD branch all return the context left by
explicit_bzero, whose state words, staging buffer and byte counter are all
zero.  No key-derived material survives. -/
theorem siphash_end_wipes_state (ctx : SIPHASH_CTX) (rc rf : Nat) (dst : List Nat) :
    (SipHash_End ctx rc rf).2 = zeroCtx ∧
    (SipHash_Final dst ctx rc rf).2 = zeroCtx ∧
    (SipHash_Final_freebsd dst ctx rc rf).2 = zeroCtx ∧
    zeroCtx = ⟨⟨0, 0, 0, 0⟩, List.replicate 8 0, 0⟩ :=
  ⟨rfl, rfl, rfl, rfl⟩

/-- C7 witness: the wipe evaluated at a concrete finalization. -/
theorem siphash_end_wipes_state_concrete :
    (SipHash_End (SipHash_Init zeroKey) 2 4).2 = zeroCtx :=
  (siphash_end_wipes_state (SipHash_Init zeroKey) 2 4 []).1

/-- C8: evaluation at a failing input for the FreeBSD branch of
SipHash_Final: with the zero key, no input and rc = 2, rf = 4, the
destination buffer (8 zero bytes) is returned unchanged and does not hold
the little-endian serialization of the digest computed by SipHash_End,
while the portable branch does store exactly those bytes. -/
theorem siphash_final_freebsd_no_store :
    ((SipHash_Final_freebsd (List.replicate 8 0) (SipHash_Init zeroKey) 2 4).1
        = List.replicate 8 0) ∧
    ((SipHash_Final_freebsd (List.replicate 8 0) (SipHash_Init zeroKey) 2 4).1
        ≠ htolem64bytes ((SipHash_End (SipHash_Init zeroKey) 2 4).1)) ∧
    ((SipHash_Final (List.replicate 8 0) (SipHash_Init zeroKey) 2 4).1
        = htolem64bytes ((SipHash_End (SipHash_Init zeroKey) 2 4).1)) := by decide

/-- C9 counterexample: with round count -1 the while (rounds--) loop never
terminates (under exact integer semantics): started on the all-zero state
words it returns none for every fuel bound, so a negative count does not
yield a defined zero-round identity result. -/
theorem siprounds_negative_count_diverges : LoopDiverges (-1) ⟨0, 0, 0, 0⟩ := by
  intro fuel
  exact sipRoundsLoop_none_of_neg fuel (-1) (by omega) _

/-- C9 (amended): for every nonnegative round count the loop terminates,
running the round body exactly that many times; in particular a count of
zero is the identity on the state words (SipHash_Rounds with count 0
returns the context unchanged). -/
theorem siprounds_nonneg_count_terminates :
    (∀ s : SipVec, sipRoundsLoop 1 0 s = some s) ∧
    (∀ (n : Nat) (s : SipVec), sipRoundsLoop (n + 1) (n : Int) s = some (sipRoundN n s)) ∧
    (∀ ctx : SIPHASH_CTX, SipHash_Rounds ctx 0 = ctx) :=
  ⟨fun _ => rfl, sipRoundsLoop_ofNat, fun _ => rfl⟩

/-- C10: SipHash_Update never reads its rf (finalization-round count)
argument: for any starting context, compression count, input and any two
values of rf, the resulting contexts are identical. -/
theorem siphash_update_ignores_rf (ctx : SIPHASH_CTX) (rc rf1 rf2 : Nat) (src : List Nat) :
    SipHash_Update ctx rc rf1 src = SipHash_Update ctx rc rf2 src := rfl

/-- Helper: decoding the little-endian store of a 64-bit value recovers
the value. -/
theorem lemtoh64_htolem64bytes (w : Nat) (h : w < 2 ^ 64) :
    lemtoh64 (htolem64bytes w) = w := by
  simp only [htolem64bytes, lemtoh64, Nat.shiftRight_eq_div_pow]
  norm_num
  omega

/-- C4: SipHash_Init always succeeds and, for a 128-bit key supplied as
the little-endian byte serializations of the 64-bit halves w0 and w1,
establishes exactly the state v0 = 736f6d6570736575 XOR w0,
v1 = 646f72616e646f6d XOR w1, v2 = 6c7967656e657261 XOR w0,
v3 = 7465646279746573 XOR w1, with the staging buffer all zero and the
byte counter zero. -/
theorem siphash_init_state (w0 w1 : Nat) (h0 : w0 < 2 ^ 64) (h1 : w1 < 2 ^ 64) :
    SipHash_Init ⟨htolem64bytes w0, htolem64bytes w1⟩ =
      ⟨⟨0x736f6d6570736575 ^^^ w0, 0x646f72616e646f6d ^^^ w1,
        0x6c7967656e657261 ^^^ w0, 0x7465646279746573 ^^^ w1⟩,
        List.replicate 8 0, 0⟩ := by
  simp only [SipHash_Init, lemtoh64_htolem64bytes w0 h0, lemtoh64_htolem64bytes w1 h1]

/-- C4 witness: the Init contract evaluated at the canonical test key
halves 0706050403020100 and 0f0e0d0c0b0a0908. -/
theorem siphash_init_state_concrete :
    (0x0706050403020100 : Nat) < 2 ^ 64 ∧ (0x0f0e0d0c0b0a0908 : Nat) < 2 ^ 64 ∧
    SipHash_Init ⟨htolem64bytes 0x0706050403020100, htolem64bytes 0x0f0e0d0c0b0a0908⟩ =
      ⟨⟨0x736f6d6570736575 ^^^ 0x0706050403020100, 0x646f72616e646f6d ^^^ 0x0f0e0d0c0b0a0908,
        0x6c7967656e657261 ^^^ 0x0706050403020100, 0x7465646279746573 ^^^ 0x0f0e0d0c0b0a0908⟩,
        List.replicate 8 0, 0⟩ :=
  ⟨by decide, by decide,
    siphash_init_state 0x0706050403020100 0x0f0e0d0c0b0a0908 (by decide) (by decide)⟩

/-- Helper: on 64-bit values SIP_ROTL is a circular left rotation: bit i
of the result is bit (i + 64 - b) mod 64 of the input. -/
theorem rotl64_testBit (x b i : Nat) (hx : x < 2 ^ 64) (hb0 : 0 < b) (hb : b < 64)
    (hi : i < 64) :
    (rotl64 x b).testBit i = x.testBit ((i + 64 - b) % 64) := by
  unfold rotl64
  rw [Nat.testBit_or, Nat.testBit_mod_two_pow, Nat.testBit_shiftLeft, Nat.testBit_shiftRight]
  rcases Nat.lt_or_ge i b with h | h
  · have h1 : ¬ b ≤ i := by omega
    have h2 : (i + 64 - b) % 64 = 64 - b + i := by omega
    simp [h1, h2]
  · have h2 : (i + 64 - b) % 64 = i - b := by omega
    have h3 : x.testBit (64 - b + i) = false :=
      Nat.testBit_lt_two_pow
        (lt_of_lt_of_le hx (Nat.pow_le_pow_right (by norm_num) (by omega)))
    simp [hi, h, h2, h3]

/-- C5: one sipRound performs exactly the fixed fourteen-step sequence on
the state words, with additions modulo 2 ^ 64; SipHash_Rounds with count n
iterates that round n times in sequence, touching nothing but the state
words; and the rotation primitive is a genuine 64-bit circular left
rotate (bit i of rotl64 x b is bit (i + 64 - b) mod 64 of x). -/
theorem siphash_round_sequence :
    (∀ s : SipVec,
      sipRound s =
        let a0 := (s.v0 + s.v1) % 2 ^ 64
        let c0 := (s.v2 + s.v3) % 2 ^ 64
        let b1 := rotl64 s.v1 13
        let d1 := rotl64 s.v3 16
        let b2 := b1 ^^^ a0
        let d2 := d1 ^^^ c0
        let a1 := rotl64 a0 32
        let c1 := (c0 + b2) % 2 ^ 64
        let a2 := (a1 + d2) % 2 ^ 64
        let b3 := rotl64 b2 17
        let d3 := rotl64 d2 21
        let b4 := b3 ^^^ c1
        let d4 := d3 ^^^ a2
        let c2 := rotl64 c1 32
        ⟨a2, b4, c2, d4⟩) ∧
    (∀ (ctx : SIPHASH_CTX) (n : Nat),
      (SipHash_Rounds ctx n).v = sipRound^[n] ctx.v ∧
      (SipHash_Rounds ctx n).buf = ctx.buf ∧
      (SipHash_Rounds ctx n).bytes = ctx.bytes) ∧
    (∀ x b i : Nat, x < 2 ^ 64 → 0 < b → b < 64 → i < 64 →
      (rotl64 x b).testBit i = x.testBit ((i + 64 - b) % 64)) := by
  refine ⟨fun s => rfl, fun ctx n => ⟨?_, rfl, rfl⟩, rotl64_testBit⟩
  exact sipRoundN_eq_iterate n ctx.v

/-- C5 witness: the rotation characterization evaluated at x = 5, b = 13,
i = 3. -/
theorem siphash_round_sequence_concrete :
    (5 : Nat) < 2 ^ 64 ∧ (0 : Nat) < 13 ∧ (13 : Nat) < 64 ∧ (3 : Nat) < 64 ∧
    (rotl64 5 13).testBit 3 = (5 : Nat).testBit ((3 + 64 - 13) % 64) :=
  ⟨by decide, by decide, by decide, by decide,
    siphash_round_sequence.2.2 5 13 3 (by decide) (by decide) (by decide) (by decide)⟩

/-- Helper: for an 8-byte staging buffer, the block built by SipHash_End
(memset of free - 1 zero bytes at offset used, then buf[7] = bytes) is
exactly the padded block the specification describes: the used valid
bytes, zeros elsewhere, and the byte count modulo 256 in the last byte. -/
theorem padded_block_eq (buf : List Nat) (B : Nat) (h : buf.length = 8) :
    (writeBytes buf (B % 8) (List.replicate (8 - B % 8 - 1) 0)).set 7 (B % 256) =
      (List.range 8).map (fun i =>
        if i < B % 8 then buf.getD i 0 else if i = 7 then B % 256 else 0) := by
  have hr : List.range 8 = [0, 1, 2, 3, 4, 5, 6, 7] := rfl
  obtain ⟨u, hu8, hBu⟩ : ∃ u, u < 8 ∧ B % 8 = u :=
    ⟨B % 8, Nat.mod_lt _ (by norm_num), rfl⟩
  rw [hBu]
  interval_cases u <;>
    simp [writeBytes, h, hr, List.set, List.replicate, List.getD]

/-- C2: for every context with the 8-byte staging buffer (as every state
reached from Init by Updates has), SipHash_End returns the digest the
specification describes: the staging block is zero-filled after the last
valid byte except the final slot, the low 8 bits of the byte count go
into the last byte, that block is absorbed with rc compression rounds,
0xff is XORed into v2, rf plain rounds run, and the digest is
(v0 XOR v1) XOR (v2 XOR v3). -/
theorem siphash_end_digest_formula (ctx : SIPHASH_CTX) (rc rf : Nat)
    (h : ctx.buf.length = 8) :
    (SipHash_End ctx rc rf).1 = sipEndSpec ctx rc rf := by
  have hp := padded_block_eq ctx.buf ctx.bytes h
  simp only [SipHash_End, sipEndSpec, SipHash_CRounds, SipHash_Rounds]
  rw [hp]

/-- C2 witness: the finalization formula evaluated on the context holding
the three staged bytes 01 02 03 under the zero key. -/
theorem siphash_end_digest_formula_concrete :
    ((SipHash_Update (SipHash_Init zeroKey) 2 4 [1, 2, 3]).buf.length = 8) ∧
    ((SipHash_End (SipHash_Update (SipHash_Init zeroKey) 2 4 [1, 2, 3]) 2 4).1
      = sipEndSpec (SipHash_Update (SipHash_Init zeroKey) 2 4 [1, 2, 3]) 2 4) :=
  ⟨by decide, siphash_end_digest_formula _ 2 4 (by decide)⟩
